import Mathlib

/-!
Verification of the TZ_Helper drafting tool (`app.py`).

The source is a single Streamlit application.  Its pure, testable pieces —
message chunking (`chunk_for_tg`), question extraction
(`parse_numbered_questions`, `parse_json_questions`, `generate_questions`),
secret resolution (`_get_secret_any`), the fallback document builder
(`build_fallback_tz`) and the Telegram send loop (`send_to_telegram`) —
are embedded here over `List Char` (Python `str`).  Stateful UI handlers
are modelled as explicit functions on a `Session` record.  Python string
semantics (whitespace stripping, `split`, `splitlines`, truthiness) are
reproduced for the ASCII/Latin-1 whitespace and line-break characters that
the application manipulates.
-/

namespace TZHelper

/-- Python strings, modelled as lists of characters. -/
abbrev Str := List Char

/-- Shorthand: the character list of a Lean string literal. -/
def toL (s : String) : Str := s.data

/-- The whitespace characters recognised by Python `str.strip()` /
regex `\s` (the ASCII/Latin-1 portion, which covers every character this
application inserts or splits on; it includes every `str.splitlines`
line-break character modelled below). -/
def pyIsSpace (c : Char) : Bool :=
  c = ' ' || c = '\t' || c = '\n' || c = '\r' ||
  c = Char.ofNat 0x0b || c = Char.ofNat 0x0c ||
  c = Char.ofNat 0x1c || c = Char.ofNat 0x1d ||
  c = Char.ofNat 0x1e || c = Char.ofNat 0x1f ||
  c = Char.ofNat 0x85 || c = Char.ofNat 0xa0

/-- The line-break characters recognised by Python `str.splitlines`
(the ASCII/Latin-1 portion; `\r\n` is additionally treated as a single
break by `pySplitlinesKeep`). -/
def isLineBreak (c : Char) : Bool :=
  c = '\n' || c = '\r' ||
  c = Char.ofNat 0x0b || c = Char.ofNat 0x0c ||
  c = Char.ofNat 0x1c || c = Char.ofNat 0x1d ||
  c = Char.ofNat 0x1e || c = Char.ofNat 0x85

/-- Python `str.lstrip()`. -/
def pyLstrip (l : Str) : Str := l.dropWhile pyIsSpace

/-- Python `str.rstrip()`. -/
def pyRstrip (l : Str) : Str := (l.reverse.dropWhile pyIsSpace).reverse

/-- Python `str.strip()`. -/
def pyStrip (l : Str) : Str := pyRstrip (pyLstrip l)

/-- Python `str.rstrip(chars)`: drop from the right every character that
belongs to `cs`. -/
def pyRstripChars (cs : List Char) (l : Str) : Str :=
  (l.reverse.dropWhile (fun c => cs.contains c)).reverse

/-- Python `str.splitlines(keepends=True)`, accumulator worker.  `acc` holds
the current (unfinished) line reversed. -/
def slKeepGo : Str → Str → List Str
  | acc, [] => if acc.isEmpty then [] else [acc.reverse]
  | acc, '\r' :: '\n' :: rest => (acc.reverse ++ ['\r', '\n']) :: slKeepGo [] rest
  | acc, c :: rest =>
    if isLineBreak c then (acc.reverse ++ [c]) :: slKeepGo [] rest
    else slKeepGo (c :: acc) rest

/-- Python `str.splitlines(keepends=True)`. -/
def pySplitlinesKeep (s : Str) : List Str := slKeepGo [] s

/-- Python `str.splitlines()` (without keepends), accumulator worker. -/
def slGo : Str → Str → List Str
  | acc, [] => if acc.isEmpty then [] else [acc.reverse]
  | acc, '\r' :: '\n' :: rest => acc.reverse :: slGo [] rest
  | acc, c :: rest =>
    if isLineBreak c then acc.reverse :: slGo [] rest
    else slGo (c :: acc) rest

/-- Python `str.splitlines()`. -/
def pySplitlines (s : Str) : List Str := slGo [] s

/-- Python `str.split("\n\n")`, accumulator worker: split on
non-overlapping occurrences of a double newline, scanning left to right.
`acc` holds the current part reversed. -/
def splitNNGo : Str → Str → List Str
  | acc, [] => [acc.reverse]
  | acc, '\n' :: '\n' :: rest => acc.reverse :: splitNNGo [] rest
  | acc, c :: rest => splitNNGo (c :: acc) rest

/-- Python `str.split("\n\n")`.  Always returns at least one part. -/
def splitOnNN (s : Str) : List Str := splitNNGo [] s

/-- Model of `chunk_for_tg`, paragraph pass (`app.py` lines 138-149): greedily
accumulate paragraph blocks (`para.strip() + "\n\n"`) into `current`,
flushing `"".join(current).rstrip()` whenever adding the next block would
exceed `limit` and `current` is non-empty. -/
def chunkPara (limit : Nat) : List Str → List Str → Nat → List Str
  | [], current, _ =>
    if current.isEmpty then [] else [pyRstrip current.flatten]
  | para :: rest, current, size =>
    let block := pyStrip para ++ ['\n', '\n']
    if size + block.length > limit ∧ current ≠ [] then
      pyRstrip current.flatten :: chunkPara limit rest [block] block.length
    else
      chunkPara limit rest (current ++ [block]) (size + block.length)

/-- Model of `chunk_for_tg`, line pass (`app.py` lines 154-162): re-split one
oversized part greedily by raw line (`splitlines(keepends=True)`), with the
same accumulate-and-flush rule. -/
def chunkLines (limit : Nat) : List Str → List Str → Nat → List Str
  | [], buf, _ =>
    if buf.isEmpty then [] else [pyRstrip buf.flatten]
  | ln :: rest, buf, tally =>
    if tally + ln.length > limit ∧ buf ≠ [] then
      pyRstrip buf.flatten :: chunkLines limit rest [ln] ln.length
    else
      chunkLines limit rest (buf ++ [ln]) (tally + ln.length)

/-- Model of `chunk_for_tg(text, limit=4000)` (`app.py` lines 134-163): strip the
text; return it whole if it fits; otherwise greedily pack stripped
paragraphs, then re-split any part still exceeding the limit by raw line. -/
def chunk_for_tg (text : Str) (limit : Nat := 4000) : List Str :=
  let t := pyStrip text
  if t.length ≤ limit then [t]
  else
    (chunkPara limit (splitOnNN t) [] 0).flatMap
      (fun p =>
        if p.length ≤ limit then [p]
        else chunkLines limit (pySplitlinesKeep p) [] 0)

/-- Predicate: `text` is a single run of non-blank-separated text: it contains no
line-break character at all (hence in particular no `"\n\n"` separator and
no line boundary at which it could have been split). -/
def breakFree (l : Str) : Bool := l.all (fun c => !isLineBreak c)

/-! ### Claim C2: what concatenating the chunks preserves -/
/-- The non-whitespace characters of a string, in order.  All the chunker
ever deletes or inserts is whitespace, so this is the content that
concatenation of the chunks preserves exactly. -/
def visibleChars (l : Str) : Str := l.filter (fun c => !pyIsSpace c)

/-! ### Claim C2 as stated: reconstruction modulo trailing whitespace -/
/-- All remainders obtainable from `r` by consuming a (possibly empty) run
of whitespace — the trailing whitespace the chunker may have trimmed from
the preceding chunk — followed by one restored original separator: the
paragraph separator `"\n\n"` or the line separator `"\n"`. -/
def afterSep (r : Str) : List Str :=
  (List.range (r.length + 1)).flatMap (fun k =>
    if (r.take k).all pyIsSpace then
      (if (r.drop k).take 2 = ['\n', '\n'] then [(r.drop k).drop 2] else []) ++
        (if (r.drop k).take 1 = ['\n'] then [(r.drop k).drop 1] else [])
    else [])

/-- Executable rendering of claim C2 as stated: the original text is the
chunks in order, each followed by the trailing whitespace trimmed from it
and (between chunks) by one restored double-newline/newline separator. -/
def reconModTrailing : List Str → Str → Bool
  | [], r => r.isEmpty
  | [c], r => c.isPrefixOf r && (r.drop c.length).all pyIsSpace
  | c :: c2 :: rest, r =>
    c.isPrefixOf r &&
      (afterSep (r.drop c.length)).any (fun r2 => reconModTrailing (c2 :: rest) r2)

/-! ### Question extraction (`app.py` lines 222-295) -/
/-- The trailing punctuation set stripped by the enumeration branch of
`parse_numbered_questions`: `rstrip("?。．！!；;：:")`. -/
def enumPunct : List Char := ['?', '。', '．', '！', '!', '；', ';', '：', ':']

/-- Regex `(\d+)[\).]\s*(.+)` applied with `re.match` to a stripped line
`s` (`\d` modelled as ASCII digits): a leading non-empty digit run, one
of `)` `.`, optional whitespace, then a non-empty remainder; returns
group 2.  When the remainder after the marker is non-empty but entirely
whitespace, group 2 captures only whitespace, which the caller strips to
the empty string; this model returns the already-skipped (empty) remainder
in that case, with the same observable outcome — and for the stripped
lines this function receives that case cannot arise anyway, because a
stripped line never ends in whitespace. -/
def enumMatch1 (s : Str) : Option Str :=
  let ds := s.takeWhile Char.isDigit
  if ds.isEmpty then none
  else
    match s.drop ds.length with
    | [] => none
    | d :: t =>
      if (d = ')' ∨ d = '.') ∧ t ≠ [] then some (t.dropWhile pyIsSpace)
      else none

/-- Regex `^[\-•]\s*(.+)` applied with `re.match` to a stripped line:
a bullet dash or dot, optional whitespace, then a non-empty remainder;
returns group 1 (same whitespace-only caveat as `enumMatch1`). -/
def enumMatch2 (s : Str) : Option Str :=
  match s with
  | [] => none
  | c :: t =>
    if (c = '-' ∨ c = '•') ∧ t ≠ [] then some (t.dropWhile pyIsSpace)
    else none

/-- Contribution of one stripped line to the enumeration pass of
`parse_numbered_questions` (`app.py` lines 226-239): if the numbered
pattern matches, or failing that the bullet pattern, the captured text is
stripped, its trailing punctuation removed, and — when non-empty — emitted
with `?` appended (`q = m.group(..).strip().rstrip("?。．！!；;：:")`;
`if q: questions.append(q + "?")`). -/
def pnqEmit (g : Str) : List Str :=
  if (pyRstripChars enumPunct (pyStrip g)).isEmpty then []
  else [pyRstripChars enumPunct (pyStrip g) ++ ['?']]

def pnqLine (s : Str) : List Str :=
  if s.isEmpty then []
  else
    match enumMatch1 s with
    | some g => pnqEmit g
    | none =>
      match enumMatch2 s with
      | some g => pnqEmit g
      | none => []

/-- Model of `parse_numbered_questions` (`app.py` lines 222-243): collect the
enumerated/bulleted questions line by line; if none were found, turn every
non-empty stripped line into a question (`s.rstrip("?") + "?"`); truncate
to 10. -/
def parse_numbered_questions (text_block : Str) : List Str :=
  let lines := pySplitlines text_block
  let questions := (lines.map pyStrip).flatMap pnqLine
  let questions :=
    if questions.isEmpty then
      ((lines.map pyStrip).filter (fun s => !s.isEmpty)).map
        (fun s => pyRstripChars ['?'] s ++ ['?'])
    else questions
  questions.take 10

/-- A single-quote character, used by the Python `repr` renderings. -/
def squote : Char := Char.ofNat 0x27

/-- Parsed JSON values — the result of a successful `json.loads`.
Numbers are modelled as integers. -/
inductive PyJson where
  | null
  | bool (b : Bool)
  | num (n : Int)
  | str (s : Str)
  | arr (elems : List PyJson)
  | obj (fields : List (Str × PyJson))

mutual
/-- Python `repr(x)` of a parsed JSON value (strings quoted). -/
def pyReprJson : PyJson → Str
  | .null => toL "None"
  | .bool true => toL "True"
  | .bool false => toL "False"
  | .num n => (toString n).data
  | .str s => squote :: s ++ [squote]
  | .arr elems => '[' :: pyReprJsonElems elems ++ [']']
  | .obj fields => Char.ofNat 0x7b :: pyReprJsonFields fields ++ [Char.ofNat 0x7d]

/-- Comma-separated `repr` of list elements. -/
def pyReprJsonElems : List PyJson → Str
  | [] => []
  | [x] => pyReprJson x
  | x :: y :: xs => pyReprJson x ++ toL ", " ++ pyReprJsonElems (y :: xs)

/-- Comma-separated `repr` of dict entries. -/
def pyReprJsonFields : List (Str × PyJson) → Str
  | [] => []
  | [(k, v)] => squote :: k ++ [squote] ++ toL ": " ++ pyReprJson v
  | (k, v) :: f :: xs =>
    squote :: k ++ [squote] ++ toL ": " ++ pyReprJson v ++ toL ", "
      ++ pyReprJsonFields (f :: xs)
end

/-- Python `str(x)` of a parsed JSON value: a string renders as itself,
anything else as its literal representation. -/
def pyStrOfJson : PyJson → Str
  | .str s => s
  | j => pyReprJson j

/-- Lookup in a parsed JSON object (`data.get("questions")`; keys are
unique after parsing). -/
def jsonGet (fields : List (Str × PyJson)) (k : Str) : Option PyJson :=
  (fields.find? (fun p => p.1 == k)).map (fun p => p.2)

/-- Model of `parse_json_questions` (`app.py` lines 245-252), modelled on the result
of `json.loads(text_block)`: `none` is a parse failure (the caught
exception), `some v` the parsed value.  When the value is a dict whose
`"questions"` entry is a list, each entry `x` with truthy `str(x).strip()`
contributes `str(x).strip().rstrip("?") + "?"`, capped at 10; every other
shape yields `[]`. -/
def parse_json_questions (parsed : Option PyJson) : List Str :=
  match parsed with
  | some (.obj fields) =>
    match jsonGet fields (toL "questions") with
    | some (.arr xs) =>
      (((xs.map pyStrOfJson).filter (fun s => !(pyStrip s).isEmpty)).map
        (fun s => pyRstripChars ['?'] (pyStrip s) ++ ['?'])).take 10
    | _ => []
  | _ => []

/-- The hardcoded fallback list of 9 generic clarifying questions
(`app.py` lines 285-295). -/
def fallbackQuestions : List Str :=
  [toL "Какова основная цель и целевая метрика?",
   toL "Кто целевая аудитория/персоны и их ключевые задачи?",
   toL "Какие входные данные/поля должен предоставить пользователь?",
   toL "Какие ограничения по стилю, тону, длине и языку ответа?",
   toL "Какие риски/нежелательные ответы нужно исключить?",
   toL "Есть ли примеры желаемого результата (few-shot)?",
   toL "Где и как это будет встроено (канал/интеграция)?",
   toL "Какие требования к логированию и метрикам качества?",
   toL "Какие юридические/безопасностные требования?"]

/-- Model of `generate_questions` (`app.py` lines 255-295).  `raw1` is the
(stripped) text returned by the first completion call, `raw2` by the
second; `parsed2` is the result of `json.loads(raw2)` inside
`parse_json_questions` (`none` when parsing fails).  Python truthiness of
each raw string gates the corresponding parse
(`parse_numbered_questions(raw1) if raw1 else []`). -/
def generate_questions (raw1 raw2 : Str) (parsed2 : Option PyJson) :
    List Str :=
  let qs1 := if !raw1.isEmpty then parse_numbered_questions raw1 else []
  if !qs1.isEmpty then qs1
  else
    let qs2 := if !raw2.isEmpty then parse_json_questions parsed2 else []
    if !qs2.isEmpty then qs2
    else fallbackQuestions

/-- Outcome of the input-stage "generate questions" button handler
(`app.py` lines 343-352): the error branch (`st.error`, no stage change)
or the transition to the questions stage with the generated list. -/
inductive GenerateOutcome where
  | error
  | toQuestions (qs : List Str)
deriving DecidableEq

/-- The input-stage handler (`app.py` lines 343-352): show an error if
`generate_questions` produced nothing, otherwise store the questions and
move to the questions stage. -/
def inputGenerateHandler (raw1 raw2 : Str) (parsed2 : Option PyJson) :
    GenerateOutcome :=
  let qs := generate_questions raw1 raw2 parsed2
  if qs.isEmpty then .error else .toQuestions qs

/-- Predicate: `q` ends with a question mark. -/
def endsWithQm (q : Str) : Bool :=
  match q.reverse with
  | '?' :: _ => true
  | _ => false

/-! ### Claim C8: the no-enumeration fallback of `parse_numbered_questions` -/
/-- No line of `text` matches a leading enumeration marker: neither the
numbered pattern `(\d+)[\).]\s*(.+)` nor the bullet pattern `^[\-•]\s*(.+)`
matches the stripped line. -/
def noEnumLinesB (text : Str) : Bool :=
  (pySplitlines text).all (fun ln =>
    (enumMatch1 (pyStrip ln)).isNone && (enumMatch2 (pyStrip ln)).isNone)

/-- The output claimed by C8 as stated: every non-empty line verbatim, in
line order, with its trailing punctuation stripped and a question mark
appended — no cap, and "trailing punctuation" read as the punctuation set
the parser strips elsewhere. -/
def claimC8Output (text : Str) : List Str :=
  (((pySplitlines text).map pyStrip).filter (fun s => !s.isEmpty)).map
    (fun s => pyRstripChars enumPunct s ++ ['?'])

/-- A concrete input with no enumeration markers: eleven non-empty lines,
the first ending in `!`. -/
def exC8 : Str := toL "Hello!\nQ1\nQ2\nQ3\nQ4\nQ5\nQ6\nQ7\nQ8\nQ9\nQ10"

/-! ### Secret resolution (`app.py` lines 44-72) -/
/-- A value stored in the secrets mapping: a string, or a nested section
(a dict of strings, like `[telegram]`). -/
inductive SecretVal where
  | str (s : Str)
  | dict (d : List (Str × Str))
deriving DecidableEq

/-- Python truthiness of a secrets value (`if v:`): non-empty string or
non-empty dict. -/
def truthyVal : SecretVal → Bool
  | .str s => !s.isEmpty
  | .dict d => !d.isEmpty

/-- Model of `isinstance(v, dict)`. -/
def isDictVal : SecretVal → Bool
  | .dict _ => true
  | .str _ => false

/-- Python `str(dict)` for a dict of strings: `{'k': 'v', ...}`. -/
def pyReprPairs : List (Str × Str) → Str
  | [] => []
  | [(k, v)] => squote :: k ++ [squote] ++ toL ": " ++ (squote :: v ++ [squote])
  | (k, v) :: p :: rest =>
    squote :: k ++ [squote] ++ toL ": " ++ (squote :: v ++ [squote]) ++ toL ", "
      ++ pyReprPairs (p :: rest)

/-- Python `str(v)` applied to a secrets value. -/
def strOfVal : SecretVal → Str
  | .str s => s
  | .dict d => Char.ofNat 0x7b :: pyReprPairs d ++ [Char.ofNat 0x7d]

/-- Mapping lookup (`m.get(k)`); keys of the source mapping are unique,
modelled as first match. -/
def assocGet {α : Type} (m : List (Str × α)) (k : Str) : Option α :=
  (m.find? (fun p => p.1 == k)).map (fun p => p.2)

/-- Model of `str.lower()` (ASCII case folding, which covers the ASCII key names the
application uses). -/
def lowerStr (s : Str) : Str := s.map Char.toLower

/-- Lookup in the lower-cased comprehension `{k.lower(): v for k, v in m}`:
on a lower-case collision the later entry overwrites, so the last matching
entry wins. -/
def lowerGet {α : Type} (m : List (Str × α)) (k : Str) : Option α :=
  (m.reverse.find? (fun p => lowerStr p.1 == k)).map (fun p => p.2)

/-- First pass of `_get_secret_any` (`app.py` lines 53-58): for each name
in order, try the name as a direct key of the root secrets
(`v = st.secrets.get(n); if v: return str(v)`), then as a key of the
`[telegram]` section (`if TELEGRAM_CONF.get(n): return str(...)`; the
`isinstance` guard always holds here since `tg` is a dict). -/
def getSecretPass1 (root : List (Str × SecretVal)) (tg : List (Str × Str)) :
    List Str → Option Str
  | [] => none
  | n :: rest =>
    if (assocGet root n).elim false truthyVal then
      (assocGet root n).map strOfVal
    else if (assocGet tg n).elim false (fun s => !s.isEmpty) then
      assocGet tg n
    else getSecretPass1 root tg rest

/-- Second pass of `_get_secret_any` (`app.py` lines 59-67): the same scan
against `root_lower` (root entries with dict values excluded, keys
lower-cased) and `tg_lower` (`if ln in root_lower and root_lower[ln]:
return str(root_lower[ln])`, then the same for `tg_lower`). -/
def getSecretPass2 (root : List (Str × SecretVal)) (tg : List (Str × Str)) :
    List Str → Option Str
  | [] => none
  | n :: rest =>
    if (lowerGet (root.filter (fun p => !isDictVal p.2)) (lowerStr n)).elim
        false truthyVal then
      (lowerGet (root.filter (fun p => !isDictVal p.2)) (lowerStr n)).map
        strOfVal
    else if (lowerGet tg (lowerStr n)).elim false (fun s => !s.isEmpty) then
      lowerGet tg (lowerStr n)
    else getSecretPass2 root tg rest

/-- Model of `_get_secret_any(*names)` (`app.py` lines 50-68).  `root` models the
`st.secrets` mapping, `tg` the `TELEGRAM_CONF` section
(`st.secrets.get("telegram", {}) or {}`).  The exact-case pass runs in
full before the case-insensitive pass. -/
def _get_secret_any (root : List (Str × SecretVal)) (tg : List (Str × Str))
    (names : List Str) : Option Str :=
  match getSecretPass1 root tg names with
  | some v => some v
  | none => getSecretPass2 root tg names

/-! Candidate checks, written from the words of claim C5. -/
/-- The name as a direct top-level key holding a non-empty value. -/
def rootHit (root : List (Str × SecretVal)) (n : Str) : Option Str :=
  (assocGet root n).bind
    (fun v => if truthyVal v then some (strOfVal v) else none)

/-- The name as a key of the nested `[telegram]` scope holding a non-empty
value. -/
def tgHit (tg : List (Str × Str)) (n : Str) : Option Str :=
  (assocGet tg n).bind (fun s => if !s.isEmpty then some s else none)

/-- The case-insensitive variant of `rootHit` (nested sections excluded,
as in the code's `root_lower`). -/
def rootHitL (root : List (Str × SecretVal)) (n : Str) : Option Str :=
  (lowerGet (root.filter (fun p => !isDictVal p.2)) (lowerStr n)).bind
    (fun v => if truthyVal v then some (strOfVal v) else none)

/-- The case-insensitive variant of `tgHit`. -/
def tgHitL (tg : List (Str × Str)) (n : Str) : Option Str :=
  (lowerGet tg (lowerStr n)).bind (fun s => if !s.isEmpty then some s else none)

/-- The search order claim C5 states, as phases: (a) every alternate name
as a direct top-level key, then (b) every alternate name inside the
`[telegram]` scope, then (c) the same two phases again case-insensitively. -/
def getSecretSpecPhases (root : List (Str × SecretVal))
    (tg : List (Str × Str)) (names : List Str) : Option Str :=
  (names.findSome? (rootHit root)).orElse (fun _ =>
    (names.findSome? (tgHit tg)).orElse (fun _ =>
      (names.findSome? (rootHitL root)).orElse (fun _ =>
        names.findSome? (tgHitL tg))))

/-- The search order the code actually implements: per name in order, the
top-level key then the `[telegram]` key; then the same interleaved scan
case-insensitively. -/
def getSecretSpecInterleaved (root : List (Str × SecretVal))
    (tg : List (Str × Str)) (names : List Str) : Option Str :=
  (names.findSome? (fun n => (rootHit root n).orElse (fun _ => tgHit tg n))).orElse
    (fun _ => names.findSome?
      (fun n => (rootHitL root n).orElse (fun _ => tgHitL tg n)))

/-! ### Telegram delivery and the draft stage
(`app.py` lines 165-191 and 410-444) -/
/-- The payload of one `requests.post` to the `sendMessage` endpoint. -/
structure TgRequest where
  chat_id : Str
  text : Str
  disable_web_page_preview : Bool
deriving DecidableEq

/-- The response to one POST (`r.status_code`, `r.text`). -/
structure HttpResponse where
  status_code : Nat
  body : Str
deriving DecidableEq

/-- Message of `st.error(f"Telegram ошибка {r.status_code}: {r.text}")`. -/
def tgErrorMsg (r : HttpResponse) : Str :=
  toL "Telegram ошибка " ++ (Nat.repr r.status_code).data ++ toL ": " ++ r.body

/-- What a call to `send_to_telegram` did: the `(request, response)` pair
of every POST actually performed, in order, and the error messages shown. -/
structure SendOutcome where
  results : List (TgRequest × HttpResponse)
  errors : List Str
deriving DecidableEq

/-- Python truthiness of an optional string (`if not TG_TOKEN`). -/
def truthyOpt : Option Str → Bool
  | some s => !s.isEmpty
  | none => false

/-- The send loop of `send_to_telegram` (`app.py` lines 174-180): POST the
chunks in order (`post i` models the network's response to the i-th POST);
stop right after the first non-200 response, recording its error message. -/
def sendLoop (post : Nat → HttpResponse) (chat : Str) :
    List Str → Nat → List (TgRequest × HttpResponse) × List Str
  | [], _ => ([], [])
  | c :: rest, i =>
    if (post i).status_code ≠ 200 then
      ([(⟨chat, c, true⟩, post i)], [tgErrorMsg (post i)])
    else
      ((⟨chat, c, true⟩, post i) :: (sendLoop post chat rest (i + 1)).1,
        (sendLoop post chat rest (i + 1)).2)

/-- Error text for a missing bot token (`app.py` line 167). -/
def tokenErrMsg : Str :=
  toL "Не найден telegram.bot_token / TELEGRAM_BOT_TOKEN / BOT_TOKEN в secrets."

/-- Error text for a missing chat id (`app.py` line 171). -/
def chatErrMsg : Str :=
  toL "Не задан chat_id (telegram.default_chat_id | telegram.chat_id | TELEGRAM_CHAT_ID | TELEGRAM_DEFAULT_CHAT_ID | CHAT_ID)."

/-- Model of `send_to_telegram(text, chat_id)` (`app.py` lines 165-181): bail out
with an error when the token, or both the explicit chat id and the default
(`chat_id or TG_DEFAULT_CHAT`), are missing/falsy; otherwise send the
chunks of `chunk_for_tg(text)` until the first non-200 response. -/
def send_to_telegram (token : Option Str) (defaultChat : Option Str)
    (post : Nat → HttpResponse) (text : Str) (chatId : Option Str) :
    SendOutcome :=
  if !truthyOpt token then ⟨[], [tokenErrMsg]⟩
  else
    match (if truthyOpt chatId then chatId else defaultChat) with
    | none => ⟨[], [chatErrMsg]⟩
    | some chat =>
      if chat.isEmpty then ⟨[], [chatErrMsg]⟩
      else
        ⟨(sendLoop post chat (chunk_for_tg text 4000) 0).1,
          (sendLoop post chat (chunk_for_tg text 4000) 0).2⟩

/-- The three wizard stages (`st.session_state.stage`). -/
inductive Stage where
  | input
  | questions
  | draft
deriving DecidableEq

/-- The per-session state (`st.session_state`, `app.py` lines 74-83). -/
structure Session where
  stage : Stage
  initial_text : Str
  questions : List Str
  answers : List (Nat × Str)
  tz_markdown : Str
  selected_dept : Option Str
  requester : Str
deriving DecidableEq

/-- Model of `reset_to_home()` (`app.py` lines 183-191). -/
def reset_to_home (_s : Session) : Session :=
  ⟨Stage.input, [], [], [], [], none, []⟩

/-- The send branch of the draft stage (`app.py` lines 428-440): after
`send_to_telegram` returns, reset to the home screen iff at least one
response was collected and every one has status 200
(`if responses and all(r.status_code == 200 for r in responses)`);
otherwise warn and keep the session unchanged, in the draft stage. -/
def draftSendHandler (s : Session) (o : SendOutcome) : Session :=
  if o.results ≠ [] ∧ o.results.all (fun p => p.2.status_code == 200) then
    reset_to_home s
  else s

/-- A concrete session sitting in the draft stage. -/
def draftSessionEx : Session :=
  ⟨Stage.draft, toL "идея", [], [], toL "doc", none, []⟩

/-! ### The fallback document (`app.py` lines 306-327 and 391-397) -/
/-- Model of `answers.get(i, "")` on the answers dict. -/
def answersGet (answers : List (Nat × Str)) (i : Nat) : Option Str :=
  (answers.find? (fun p => p.1 == i)).map (fun p => p.2)

/-- Model of `str(answers.get(i, "") or "—")`: the answer when present and truthy,
otherwise the em-dash placeholder. -/
def ansOf (answers : List (Nat × Str)) (i : Nat) : Str :=
  match answersGet answers i with
  | some a => if a.isEmpty then toL "—" else a
  | none => toL "—"

/-- One `f"- {i+1}. {q}\n  Ответ: {ans}\n"` entry of the clarifications
section (`app.py` lines 311-313). -/
def qaLine (answers : List (Nat × Str)) (questions : List Str) (i : Nat) :
    Str :=
  toL "- " ++ (Nat.repr (i + 1)).data ++ toL ". " ++ questions.getD i []
    ++ toL "\n  Ответ: " ++ ansOf answers i ++ toL "\n"

/-- Model of `build_fallback_tz(initial_text, questions, answers)`
(`app.py` lines 306-327): the `md` pieces joined with `"".join`. -/
def build_fallback_tz (initial_text : Str) (questions : List Str)
    (answers : List (Nat × Str)) : Str :=
  (([toL "# Название\n", toL "Черновик ТЗ (автосборка)\n\n",
      toL "## Исходный ввод\n", pyStrip initial_text ++ toL "\n\n",
      toL "## Уточнения\n"]
    ++ (List.range questions.length).map (qaLine answers questions)
    ++ [toL "\n## Цель\n—\n\n",
        toL "## Контекст и ограничения\n—\n\n",
        toL "## Пользовательские сценарии\n- —\n- —\n- —\n\n",
        toL "## Входные данные\n- —\n\n",
        toL "## Выход/результат\n- —\n\n",
        toL "## Критерии качества и приёмки\n- —\n\n",
        toL "## Ограничения генерации\n- —\n\n",
        toL "## Технические детали промпта\n- Системное сообщение — заполнить\n- Параметры: temperature/top_p — уточнить\n\n",
        toL "## Телеметрия и логирование\n- —\n\n",
        toL "## Риски и допущения\n- —\n\n",
        toL "## Чек-лист готовности\n- —\n"]) : List Str).flatten

/-- The document stored by the questions-stage "build" handler
(`app.py` lines 391-397): the completion result, or the locally built
fallback when the result is empty after trimming
(`if not tz_md.strip(): tz_md = build_fallback_tz(...)`). -/
def tzBuildResult (llmResult : Str) (initial_text : Str)
    (questions : List Str) (answers : List (Nat × Str)) : Str :=
  if (pyStrip llmResult).isEmpty then
    build_fallback_tz initial_text questions answers
  else llmResult

/-! ### Whitespace-stripping lemmas -/
theorem isLineBreak_isSpace {c : Char} (h : isLineBreak c = true) :
    pyIsSpace c = true := by
  simp only [isLineBreak, Bool.or_eq_true, decide_eq_true_eq] at h
  simp only [pyIsSpace, Bool.or_eq_true, decide_eq_true_eq]
  tauto

theorem dropWhile_all_append {p : Char → Bool} {u : Str} (v : Str)
    (h : u.all p = true) : List.dropWhile p (u ++ v) = List.dropWhile p v := by
  induction u with
  | nil => rfl
  | cons c u ih =>
    simp only [List.all_cons, Bool.and_eq_true] at h
    simp [List.dropWhile, h.1, ih h.2]

/-- Decomposition: `l` is its own rstrip followed by a run of trailing whitespace. -/
theorem pyRstrip_eq_append (l : Str) :
    ∃ w, l = pyRstrip l ++ w ∧ w.all pyIsSpace = true := by
  refine ⟨(l.reverse.takeWhile pyIsSpace).reverse, ?_, ?_⟩
  · have h := congrArg List.reverse
      (List.takeWhile_append_dropWhile (p := pyIsSpace) (l := l.reverse))
    rw [List.reverse_append, List.reverse_reverse] at h
    rw [pyRstrip]
    exact h.symm
  · simp only [List.all_reverse, List.all_eq_true]
    exact fun c hc => List.mem_takeWhile_imp hc

theorem pyRstrip_length_le (l : Str) : (pyRstrip l).length ≤ l.length := by
  obtain ⟨w, hw, -⟩ := pyRstrip_eq_append l
  conv_rhs => rw [hw]
  simp

theorem pyRstrip_all {q : Char → Bool} {l : Str} (h : l.all q = true) :
    (pyRstrip l).all q = true := by
  obtain ⟨w, hw, -⟩ := pyRstrip_eq_append l
  rw [hw, List.all_append, Bool.and_eq_true] at h
  exact h.1

theorem pyRstrip_append_ws {w : Str} (a : Str) (h : w.all pyIsSpace = true) :
    pyRstrip (a ++ w) = pyRstrip a := by
  have hrev : w.reverse.all pyIsSpace = true := by
    rw [List.all_reverse]; exact h
  simp [pyRstrip, dropWhile_all_append _ hrev]

theorem pyRstrip_nil_of_all {l : Str} (h : l.all pyIsSpace = true) :
    pyRstrip l = [] := by
  have := pyRstrip_append_ws ([] : Str) h
  simpa [pyRstrip] using this

theorem pyStrip_nil_of_all {l : Str} (h : l.all pyIsSpace = true) :
    pyStrip l = [] := by
  have hl : pyLstrip l = [] := by
    simp only [pyLstrip, List.dropWhile_eq_nil_iff]
    simp only [List.all_eq_true] at h
    exact h
  simp [pyStrip, hl, pyRstrip]

theorem pyStrip_nil : pyStrip ([] : Str) = [] := by
  simp [pyStrip, pyLstrip, pyRstrip]

/-! ### Lines produced by `splitlines(keepends=True)` are break-free after
rstrip: every line-break character of a line sits in its trailing keepend,
and keepend characters are whitespace. -/
theorem breakFree_append {a b : Str} (ha : breakFree a = true)
    (hb : breakFree b = true) : breakFree (a ++ b) = true := by
  simp only [breakFree, List.all_append, Bool.and_eq_true]
  exact ⟨ha, hb⟩

theorem breakFree_reverse {a : Str} (ha : breakFree a = true) :
    breakFree a.reverse = true := by
  rw [breakFree, List.all_reverse]; exact ha

/-! Unfolding equations for `slKeepGo` with the overlap side conditions
discharged. -/
theorem slKeepGo_nil (acc : Str) :
    slKeepGo acc [] = if acc.isEmpty then [] else [acc.reverse] := rfl

theorem slKeepGo_crlf (acc : Str) (rest : Str) :
    slKeepGo acc ('\r' :: '\n' :: rest)
      = (acc.reverse ++ ['\r', '\n']) :: slKeepGo [] rest := rfl

theorem slKeepGo_cons_break (acc : Str) (c : Char) (rest : Str)
    (hnl : ∀ rest1, c = '\r' → rest = '\n' :: rest1 → False)
    (h : isLineBreak c = true) :
    slKeepGo acc (c :: rest) = (acc.reverse ++ [c]) :: slKeepGo [] rest := by
  rcases rest with _ | ⟨c2, rest⟩
  · simp [slKeepGo, h]
  · by_cases hr : c = '\r' <;> by_cases hn : c2 = '\n'
    · exact (hnl rest hr (by rw [hn])).elim
    · subst hr; simp [slKeepGo, h, hn]
    · subst hn; simp [slKeepGo, h, hr]
    · simp [slKeepGo, h, hr, hn]

theorem slKeepGo_cons_flat (acc : Str) (c : Char) (rest : Str)
    (h : isLineBreak c = false) :
    slKeepGo acc (c :: rest) = slKeepGo (c :: acc) rest := by
  have hr : ¬ c = '\r' := by
    intro hh; subst hh; simp [isLineBreak] at h
  rcases rest with _ | ⟨c2, rest⟩
  · simp [slKeepGo, h]
  · simp [slKeepGo, h, hr]

/-- Every line produced by `splitlines(keepends=True)` is break-free once
its trailing whitespace (which contains its keepend, if any) is removed. -/
theorem slKeepGo_lineOK :
    ∀ (acc l : Str), breakFree acc = true →
      ∀ ln ∈ slKeepGo acc l, breakFree (pyRstrip ln) = true := by
  intro acc l
  induction acc, l using slKeepGo.induct with
  | case1 acc hemp =>
    intro _ ln hln
    simp [slKeepGo_nil, hemp] at hln
  | case2 acc hemp =>
    intro hacc ln hln
    rw [slKeepGo_nil, if_neg hemp, List.mem_singleton] at hln
    subst hln
    exact pyRstrip_all (breakFree_reverse hacc)
  | case3 acc rest ih =>
    intro hacc ln hln
    rw [slKeepGo_crlf] at hln
    rcases List.mem_cons.mp hln with h | h
    · subst h
      rw [pyRstrip_append_ws _ (by simp [pyIsSpace])]
      exact pyRstrip_all (breakFree_reverse hacc)
    · exact ih rfl ln h
  | case4 acc c rest hnl hbrk ih =>
    intro hacc ln hln
    rw [slKeepGo_cons_break acc c rest hnl hbrk] at hln
    rcases List.mem_cons.mp hln with h | h
    · subst h
      rw [pyRstrip_append_ws _ (by simp [isLineBreak_isSpace hbrk])]
      exact pyRstrip_all (breakFree_reverse hacc)
    · exact ih rfl ln h
  | case5 acc c rest hnl hbrk ih =>
    intro hacc ln hln
    rw [slKeepGo_cons_flat acc c rest (Bool.not_eq_true _ ▸ hbrk)] at hln
    refine ih ?_ ln hln
    simp only [breakFree, List.all_cons, Bool.and_eq_true]
    exact ⟨by simpa using hbrk, hacc⟩

/-! ### Claim C1: chunk sizes -/
/-- Invariant of the line re-split loop: the running `tally` is the length
of the accumulated buffer, every buffered or pending line is break-free
after rstrip, and a multi-line buffer never exceeds the limit.  Under these
conditions every emitted chunk either fits the limit or is (the rstrip of)
a single line, hence break-free. -/
theorem chunkLines_bound (limit : Nat) :
    ∀ (lines buf : List Str) (tally : Nat),
      (∀ ln ∈ lines, breakFree (pyRstrip ln) = true) →
      (∀ ln ∈ buf, breakFree (pyRstrip ln) = true) →
      tally = buf.flatten.length →
      (2 ≤ buf.length → tally ≤ limit) →
      ∀ c ∈ chunkLines limit lines buf tally,
        c.length ≤ limit ∨ breakFree c = true := by
  intro lines
  induction lines with
  | nil =>
    intro buf tally _ hbuf htal hinv c hc
    rcases buf with _ | ⟨b, buf'⟩
    · simp [chunkLines] at hc
    · rw [show chunkLines limit [] (b :: buf') tally
            = [pyRstrip (b :: buf').flatten] from rfl, List.mem_singleton] at hc
      subst hc
      rcases buf' with _ | ⟨b2, buf''⟩
      · right
        simp only [List.flatten_cons, List.flatten_nil, List.append_nil]
        exact hbuf b (by simp)
      · left
        calc (pyRstrip (b :: b2 :: buf'').flatten).length
            ≤ (b :: b2 :: buf'').flatten.length := pyRstrip_length_le _
          _ = tally := htal.symm
          _ ≤ limit := hinv (by simp)
  | cons ln rest ih =>
    intro buf tally hlines hbuf htal hinv c hc
    have hln : breakFree (pyRstrip ln) = true := hlines ln (by simp)
    have hrest : ∀ l ∈ rest, breakFree (pyRstrip l) = true :=
      fun l hl => hlines l (by simp [hl])
    rw [show chunkLines limit (ln :: rest) buf tally
          = if tally + ln.length > limit ∧ buf ≠ [] then
              pyRstrip buf.flatten :: chunkLines limit rest [ln] ln.length
            else chunkLines limit rest (buf ++ [ln]) (tally + ln.length)
          from rfl] at hc
    by_cases hcond : tally + ln.length > limit ∧ buf ≠ []
    · rw [if_pos hcond, List.mem_cons] at hc
      rcases hc with h | h
      · subst h
        rcases buf with _ | ⟨b, buf'⟩
        · exact absurd rfl hcond.2
        rcases buf' with _ | ⟨b2, buf''⟩
        · right
          simp only [List.flatten_cons, List.flatten_nil, List.append_nil]
          exact hbuf b (by simp)
        · left
          calc (pyRstrip (b :: b2 :: buf'').flatten).length
              ≤ (b :: b2 :: buf'').flatten.length := pyRstrip_length_le _
            _ = tally := htal.symm
            _ ≤ limit := hinv (by simp)
      · refine ih [ln] ln.length hrest ?_ (by simp) ?_ c h
        · intro l hl
          rw [List.mem_singleton] at hl
          subst hl
          exact hln
        · intro h2
          simp at h2
    · rw [if_neg hcond] at hc
      refine ih (buf ++ [ln]) (tally + ln.length) hrest ?_ ?_ ?_ c hc
      · intro l hl
        rcases List.mem_append.mp hl with h | h
        · exact hbuf l h
        · rw [List.mem_singleton] at h
          subst h
          exact hln
      · simp [htal]
      · intro hlen
        rcases buf with _ | ⟨b, buf'⟩
        · simp at hlen
        · have : ¬ tally + ln.length > limit := by
            intro hgt
            exact hcond ⟨hgt, by simp⟩
          omega

/-- Claim C1: for every input text and every positive chunk limit, every
chunk returned by `chunk_for_tg` has length at most the limit, except that
a chunk consisting of a single run of non-blank-separated text (a single
line, i.e. a chunk with no line-break character) longer than the limit is
returned as one oversized chunk with no mid-line splitting. -/
theorem claim_C1_chunk_bound (text : Str) (limit : Nat) (_hpos : 0 < limit) :
    ∀ c ∈ chunk_for_tg text limit, c.length ≤ limit ∨ breakFree c = true := by
  intro c hc
  simp only [chunk_for_tg] at hc
  by_cases hfit : (pyStrip text).length ≤ limit
  · rw [if_pos hfit, List.mem_singleton] at hc
    subst hc
    exact Or.inl hfit
  · rw [if_neg hfit] at hc
    rcases List.mem_flatMap.mp hc with ⟨p, hp, hcp⟩
    by_cases hlen : p.length ≤ limit
    · rw [if_pos hlen, List.mem_singleton] at hcp
      subst hcp
      exact Or.inl hlen
    · rw [if_neg hlen] at hcp
      exact chunkLines_bound limit (pySplitlinesKeep p) [] 0
        (slKeepGo_lineOK [] p rfl) (by simp) (by simp)
        (by intro h; simp at h) c hcp

/-- Witness for C1 at a concrete input: with limit 4,
`chunk_for_tg "aaaaaa\nbb" = ["aaaaaa", "bb"]`; the oversized first chunk
is a single break-free line. -/
theorem claim_C1_chunk_bound_witness :
    0 < 4 ∧ toL "aaaaaa" ∈ chunk_for_tg (toL "aaaaaa\nbb") 4 ∧
      ((toL "aaaaaa").length ≤ 4 ∨ breakFree (toL "aaaaaa") = true) :=
  ⟨by decide, by decide,
    claim_C1_chunk_bound (toL "aaaaaa\nbb") 4 (by decide)
      (toL "aaaaaa") (by decide)⟩

theorem visibleChars_append (a b : Str) :
    visibleChars (a ++ b) = visibleChars a ++ visibleChars b := by
  simp [visibleChars]

theorem visibleChars_of_all_ws {w : Str} (h : w.all pyIsSpace = true) :
    visibleChars w = [] := by
  simp only [visibleChars, List.filter_eq_nil_iff, Bool.not_eq_true',
    Bool.not_eq_true]
  simp only [List.all_eq_true] at h
  exact fun c hc => by simp [h c hc]

theorem visibleChars_pyRstrip (l : Str) :
    visibleChars (pyRstrip l) = visibleChars l := by
  obtain ⟨w, hw, hall⟩ := pyRstrip_eq_append l
  conv_rhs => rw [hw]
  rw [visibleChars_append, visibleChars_of_all_ws hall, List.append_nil]

theorem visibleChars_pyLstrip (l : Str) :
    visibleChars (pyLstrip l) = visibleChars l := by
  have hsplit : l = l.takeWhile pyIsSpace ++ pyLstrip l :=
    (List.takeWhile_append_dropWhile (p := pyIsSpace) (l := l)).symm
  have hvis : visibleChars (l.takeWhile pyIsSpace) = [] :=
    visibleChars_of_all_ws (by
      simp only [List.all_eq_true]
      exact fun c hc => List.mem_takeWhile_imp hc)
  conv_rhs => rw [hsplit]
  rw [visibleChars_append, hvis, List.nil_append]

theorem visibleChars_nil : visibleChars ([] : Str) = [] := rfl

theorem visibleChars_flatten (L : List Str) :
    visibleChars L.flatten = (L.map visibleChars).flatten := by
  induction L with
  | nil => rfl
  | cons a L ih =>
    simp only [List.flatten_cons, List.map_cons, visibleChars_append, ih]

theorem visibleChars_pyStrip (l : Str) :
    visibleChars (pyStrip l) = visibleChars l := by
  rw [pyStrip, visibleChars_pyRstrip, visibleChars_pyLstrip]

/-- Lemma: `splitlines(keepends=True)` partitions the string exactly. -/
theorem slKeepGo_flatten :
    ∀ (acc l : Str), (slKeepGo acc l).flatten = acc.reverse ++ l := by
  intro acc l
  induction acc, l using slKeepGo.induct with
  | case1 acc hemp =>
    rw [slKeepGo_nil, if_pos hemp]
    simp [List.isEmpty_iff.mp hemp]
  | case2 acc hemp =>
    rw [slKeepGo_nil, if_neg hemp]
    simp
  | case3 acc rest ih =>
    rw [slKeepGo_crlf]
    simp only [List.flatten_cons, ih, List.reverse_nil, List.nil_append]
    simp
  | case4 acc c rest hnl hbrk ih =>
    rw [slKeepGo_cons_break acc c rest hnl hbrk]
    simp only [List.flatten_cons, ih, List.reverse_nil, List.nil_append]
    simp
  | case5 acc c rest hnl hbrk ih =>
    rw [slKeepGo_cons_flat acc c rest (Bool.not_eq_true _ ▸ hbrk)]
    rw [ih]
    simp

/-! Unfolding equations for `splitNNGo`. -/
theorem splitNNGo_nil (acc : Str) : splitNNGo acc [] = [acc.reverse] := rfl

theorem splitNNGo_nn (acc : Str) (rest : Str) :
    splitNNGo acc ('\n' :: '\n' :: rest) = acc.reverse :: splitNNGo [] rest :=
  rfl

theorem splitNNGo_cons (acc : Str) (c : Char) (rest : Str)
    (hnl : ∀ rest1, c = '\n' → rest = '\n' :: rest1 → False) :
    splitNNGo acc (c :: rest) = splitNNGo (c :: acc) rest := by
  rcases rest with _ | ⟨c2, rest⟩
  · by_cases hc : c = '\n'
    · subst hc; rfl
    · simp [splitNNGo, hc]
  · by_cases hc : c = '\n' <;> by_cases hc2 : c2 = '\n'
    · exact (hnl rest hc (by rw [hc2])).elim
    · subst hc; simp [splitNNGo, hc2]
    · subst hc2; simp [splitNNGo, hc]
    · simp [splitNNGo, hc, hc2]

/-- Lemma: `split("\n\n")` loses exactly the separators, which are whitespace. -/
theorem splitNNGo_visible :
    ∀ (acc l : Str),
      ((splitNNGo acc l).map visibleChars).flatten
        = visibleChars acc.reverse ++ visibleChars l := by
  intro acc l
  induction acc, l using splitNNGo.induct with
  | case1 acc =>
    rw [splitNNGo_nil]
    simp [visibleChars]
  | case2 acc rest ih =>
    rw [splitNNGo_nn]
    rw [List.map_cons, List.flatten_cons, ih]
    have hnl : visibleChars ('\n' :: '\n' :: rest) = visibleChars rest := by
      simp [visibleChars, pyIsSpace]
    rw [hnl, List.reverse_nil, visibleChars_nil, List.nil_append]
  | case3 acc c rest hnl ih =>
    rw [splitNNGo_cons acc c rest hnl, ih]
    have h1 : visibleChars (c :: acc).reverse
        = visibleChars acc.reverse ++ visibleChars [c] := by
      rw [List.reverse_cons, visibleChars_append]
    have h2 : visibleChars (c :: rest) = visibleChars [c] ++ visibleChars rest := by
      rw [show (c :: rest) = [c] ++ rest from rfl, visibleChars_append]
    rw [h1, h2, List.append_assoc]

theorem chunkLines_visible (limit : Nat) :
    ∀ (lines buf : List Str) (tally : Nat),
      visibleChars (chunkLines limit lines buf tally).flatten
        = visibleChars buf.flatten ++ visibleChars lines.flatten := by
  intro lines
  induction lines with
  | nil =>
    intro buf tally
    rcases buf with _ | ⟨b, buf'⟩
    · simp [chunkLines, visibleChars]
    · rw [show chunkLines limit [] (b :: buf') tally
            = [pyRstrip (b :: buf').flatten] from rfl]
      simp only [List.flatten_cons, List.flatten_nil, List.append_nil,
        visibleChars_nil, visibleChars_pyRstrip]
  | cons ln rest ih =>
    intro buf tally
    rw [show chunkLines limit (ln :: rest) buf tally
          = if tally + ln.length > limit ∧ buf ≠ [] then
              pyRstrip buf.flatten :: chunkLines limit rest [ln] ln.length
            else chunkLines limit rest (buf ++ [ln]) (tally + ln.length)
          from rfl]
    by_cases hcond : tally + ln.length > limit ∧ buf ≠ []
    · rw [if_pos hcond]
      simp only [List.flatten_cons, List.flatten_nil, List.append_nil,
        visibleChars_append, visibleChars_pyRstrip, ih, List.append_assoc]
    · rw [if_neg hcond, ih]
      simp only [List.flatten_append, List.flatten_cons, List.flatten_nil,
        List.append_nil, visibleChars_append, List.append_assoc]

theorem chunkPara_visible (limit : Nat) :
    ∀ (paras current : List Str) (size : Nat),
      visibleChars (chunkPara limit paras current size).flatten
        = visibleChars current.flatten ++ (paras.map visibleChars).flatten := by
  intro paras
  induction paras with
  | nil =>
    intro current size
    rcases current with _ | ⟨b, cur'⟩
    · simp [chunkPara, visibleChars]
    · rw [show chunkPara limit [] (b :: cur') size
            = [pyRstrip (b :: cur').flatten] from rfl]
      simp only [List.flatten_cons, List.flatten_nil, List.append_nil,
        List.map_nil, visibleChars_nil, visibleChars_pyRstrip]
  | cons para rest ih =>
    intro current size
    have hblock : visibleChars (pyStrip para ++ ['\n', '\n'])
        = visibleChars para := by
      rw [visibleChars_append, visibleChars_pyStrip]
      simp [visibleChars, pyIsSpace]
    rw [show chunkPara limit (para :: rest) current size
          = if size + (pyStrip para ++ ['\n', '\n']).length > limit ∧ current ≠ [] then
              pyRstrip current.flatten ::
                chunkPara limit rest [pyStrip para ++ ['\n', '\n']]
                  (pyStrip para ++ ['\n', '\n']).length
            else chunkPara limit rest (current ++ [pyStrip para ++ ['\n', '\n']])
                   (size + (pyStrip para ++ ['\n', '\n']).length)
          from rfl]
    by_cases hcond : size + (pyStrip para ++ ['\n', '\n']).length > limit ∧ current ≠ []
    · rw [if_pos hcond]
      simp only [List.flatten_cons, List.flatten_nil, List.append_nil,
        visibleChars_append, visibleChars_pyRstrip, ih, List.map_cons,
        hblock, visibleChars_nil, List.append_assoc]
    · rw [if_neg hcond, ih]
      simp only [List.flatten_append, List.flatten_cons, List.flatten_nil,
        List.append_nil, visibleChars_append, List.map_cons, hblock,
        visibleChars_nil, List.append_assoc]

/-- Each part either passes through the post-pass whole or is re-split at
line boundaries; both preserve its non-whitespace characters. -/
theorem fixPart_visible (limit : Nat) (p : Str) :
    visibleChars (if p.length ≤ limit then [p]
      else chunkLines limit (pySplitlinesKeep p) [] 0).flatten
        = visibleChars p := by
  by_cases h : p.length ≤ limit
  · rw [if_pos h]
    simp
  · rw [if_neg h, chunkLines_visible]
    rw [show (pySplitlinesKeep p) = slKeepGo [] p from rfl, slKeepGo_flatten]
    simp only [List.flatten_nil, visibleChars_nil, List.nil_append,
      List.reverse_nil]

theorem visibleChars_intercalate {sep : Str} (h : sep.all pyIsSpace = true) :
    ∀ L : List Str, visibleChars (sep.intercalate L) = visibleChars L.flatten := by
  intro L
  induction L with
  | nil => rfl
  | cons a t ih =>
    cases t with
    | nil => simp [List.intercalate]
    | cons b t2 =>
      rw [List.intercalate] at ih ⊢
      rw [List.intersperse_cons_cons]
      simp only [List.flatten_cons, visibleChars_append,
        visibleChars_of_all_ws h, ih, List.nil_append]

/-- Claim C2 (amended): concatenating the chunks in order — with or without
restoring `"\n\n"` separators between them — preserves exactly the sequence
of non-whitespace characters of the original text.  The loss is confined to
whitespace, but it is not limited to trailing whitespace per chunk: leading
whitespace of the text, leading and trailing whitespace of each paragraph,
and surplus newlines between paragraphs are also dropped. -/
theorem claim_C2_concat_visible (text : Str) (limit : Nat) :
    visibleChars (chunk_for_tg text limit).flatten = visibleChars text ∧
    visibleChars ((toL "\n\n").intercalate (chunk_for_tg text limit))
      = visibleChars text := by
  have hmain : visibleChars (chunk_for_tg text limit).flatten
      = visibleChars text := by
    simp only [chunk_for_tg]
    by_cases hfit : (pyStrip text).length ≤ limit
    · rw [if_pos hfit]
      simp only [List.flatten_cons, List.flatten_nil, List.append_nil]
      exact visibleChars_pyStrip text
    · rw [if_neg hfit]
      have hparts : ∀ parts : List Str,
          visibleChars (parts.flatMap (fun p => if p.length ≤ limit then [p]
            else chunkLines limit (pySplitlinesKeep p) [] 0)).flatten
          = visibleChars parts.flatten := by
        intro parts
        induction parts with
        | nil => rfl
        | cons p ps ih =>
          rw [List.flatMap_cons, List.flatten_append, visibleChars_append, ih,
            fixPart_visible, List.flatten_cons, visibleChars_append]
      rw [hparts (chunkPara limit (splitOnNN (pyStrip text)) [] 0)]
      have hpv := chunkPara_visible limit (splitOnNN (pyStrip text)) [] 0
      rw [show visibleChars (chunkPara limit (splitOnNN (pyStrip text)) [] 0).flatten
            = visibleChars ([] : List Str).flatten
              ++ ((splitOnNN (pyStrip text)).map visibleChars).flatten from hpv]
      rw [show splitOnNN (pyStrip text) = splitNNGo [] (pyStrip text) from rfl,
        splitNNGo_visible]
      simp only [List.flatten_nil, visibleChars_nil, List.nil_append,
        List.reverse_nil]
      exact visibleChars_pyStrip text
  refine ⟨hmain, ?_⟩
  rw [visibleChars_intercalate (by decide) (chunk_for_tg text limit)]
  exact hmain

/-- Counterexample to claim C2 as stated: on
`"aaaa\n\n  hi\n\nbbbb"` with limit 4 the chunker returns
`["aaaa", "hi", "bbbb"]`, dropping the two spaces at the head of the middle
paragraph.  That loss is leading — not trailing — whitespace, so no
assignment of trimmed-trailing-whitespace runs and restored separators
reconstructs the original text, and the universal claim fails. -/
theorem claim_C2_counterexample :
    chunk_for_tg (toL "aaaa\n\n  hi\n\nbbbb") 4
        = [toL "aaaa", toL "hi", toL "bbbb"] ∧
    reconModTrailing (chunk_for_tg (toL "aaaa\n\n  hi\n\nbbbb") 4)
        (toL "aaaa\n\n  hi\n\nbbbb") = false ∧
    ¬ (∀ (text : Str) (limit : Nat), 0 < limit →
        reconModTrailing (chunk_for_tg text limit) text = true) := by
  refine ⟨by decide, by decide, fun h => ?_⟩
  have hx := h (toL "aaaa\n\n  hi\n\nbbbb") 4 (by decide)
  exact absurd hx (by decide)

theorem endsWithQm_concat (l : Str) : endsWithQm (l ++ ['?']) = true := by
  simp [endsWithQm, List.reverse_append]

theorem pnqLine_shape (s : Str) : ∀ q ∈ pnqLine s, ∃ x, q = x ++ ['?'] := by
  have hemit : ∀ g, ∀ q ∈ pnqEmit g, ∃ x, q = x ++ ['?'] := by
    intro g q hq
    rw [pnqEmit] at hq
    split at hq
    · simp at hq
    · rw [List.mem_singleton] at hq
      exact ⟨_, hq⟩
  intro q hq
  rw [pnqLine] at hq
  split at hq
  · simp at hq
  · split at hq
    · exact hemit _ q hq
    · split at hq
      · exact hemit _ q hq
      · simp at hq

theorem parse_numbered_questions_length_le (raw : Str) :
    (parse_numbered_questions raw).length ≤ 10 := by
  simp only [parse_numbered_questions]
  exact List.length_take_le 10 _

theorem parse_numbered_questions_endsQm (raw : Str) :
    ∀ q ∈ parse_numbered_questions raw, endsWithQm q = true := by
  intro q hq
  simp only [parse_numbered_questions] at hq
  have hq2 := List.mem_of_mem_take hq
  split at hq2
  · rcases List.mem_map.mp hq2 with ⟨s, hs, rfl⟩
    exact endsWithQm_concat _
  · rcases List.mem_flatMap.mp hq2 with ⟨s, hs, hqs⟩
    rcases pnqLine_shape s q hqs with ⟨x, rfl⟩
    exact endsWithQm_concat x

/-- Lemma: `parse_json_questions` either finds a `"questions"` list and maps it,
or returns nothing. -/
theorem parse_json_questions_cases (parsed : Option PyJson) :
    parse_json_questions parsed = [] ∨
    ∃ xs : List PyJson,
      parse_json_questions parsed
        = (((xs.map pyStrOfJson).filter (fun s => !(pyStrip s).isEmpty)).map
            (fun s => pyRstripChars ['?'] (pyStrip s) ++ ['?'])).take 10 := by
  rcases parsed with _ | j
  · exact Or.inl rfl
  · rcases j with _ | b | n | s | es | fs
    · exact Or.inl rfl
    · exact Or.inl rfl
    · exact Or.inl rfl
    · exact Or.inl rfl
    · exact Or.inl rfl
    · rcases hv : jsonGet fs (toL "questions") with _ | v
      · left
        simp only [parse_json_questions, hv]
      · rcases v with _ | b2 | n2 | s2 | xs | fs2
        · left; simp only [parse_json_questions, hv]
        · left; simp only [parse_json_questions, hv]
        · left; simp only [parse_json_questions, hv]
        · left; simp only [parse_json_questions, hv]
        · right
          exact ⟨xs, by simp only [parse_json_questions, hv]⟩
        · left; simp only [parse_json_questions, hv]

theorem parse_json_questions_length_le (parsed : Option PyJson) :
    (parse_json_questions parsed).length ≤ 10 := by
  rcases parse_json_questions_cases parsed with h | ⟨xs, h⟩
  · simp [h]
  · rw [h]
    exact List.length_take_le 10 _

theorem parse_json_questions_endsQm (parsed : Option PyJson) :
    ∀ q ∈ parse_json_questions parsed, endsWithQm q = true := by
  intro q hq
  rcases parse_json_questions_cases parsed with h | ⟨xs, h⟩
  · rw [h] at hq
    simp at hq
  · rw [h] at hq
    have hq2 := List.mem_of_mem_take hq
    rcases List.mem_map.mp hq2 with ⟨s, hs, rfl⟩
    exact endsWithQm_concat _

theorem fallbackQuestions_endsQm :
    ∀ q ∈ fallbackQuestions, endsWithQm q = true := by decide

/-- Lemma: `generate_questions` returns the numbered parse when it is non-empty,
otherwise the JSON parse when it is non-empty, otherwise the fallback. -/
theorem generate_questions_cases (raw1 raw2 : Str) (parsed2 : Option PyJson) :
    (generate_questions raw1 raw2 parsed2 = parse_numbered_questions raw1
       ∧ parse_numbered_questions raw1 ≠ []) ∨
    (generate_questions raw1 raw2 parsed2 = parse_json_questions parsed2
       ∧ parse_json_questions parsed2 ≠ []) ∨
    generate_questions raw1 raw2 parsed2 = fallbackQuestions := by
  have hR : generate_questions raw1 raw2 parsed2 =
      if (!(if !raw1.isEmpty then parse_numbered_questions raw1
             else []).isEmpty) = true
      then (if !raw1.isEmpty then parse_numbered_questions raw1 else [])
      else if (!(if !raw2.isEmpty then parse_json_questions parsed2
                  else []).isEmpty) = true
        then (if !raw2.isEmpty then parse_json_questions parsed2 else [])
        else fallbackQuestions := rfl
  rw [hR]
  by_cases hb1 : (!raw1.isEmpty) = true
  · rw [if_pos hb1]
    by_cases hp1 : (parse_numbered_questions raw1).isEmpty
    · rw [if_neg (by simp [hp1])]
      by_cases hb2 : (!raw2.isEmpty) = true
      · rw [if_pos hb2]
        by_cases hp2 : (parse_json_questions parsed2).isEmpty
        · rw [if_neg (by simp [hp2])]
          exact Or.inr (Or.inr rfl)
        · rw [if_pos (by simpa using hp2)]
          exact Or.inr (Or.inl ⟨rfl, by simpa [List.isEmpty_iff] using hp2⟩)
      · rw [if_neg hb2]
        rw [if_neg (by simp)]
        exact Or.inr (Or.inr rfl)
    · rw [if_pos (by simpa using hp1)]
      exact Or.inl ⟨rfl, by simpa [List.isEmpty_iff] using hp1⟩
  · rw [if_neg hb1]
    rw [if_neg (by simp)]
    by_cases hb2 : (!raw2.isEmpty) = true
    · rw [if_pos hb2]
      by_cases hp2 : (parse_json_questions parsed2).isEmpty
      · rw [if_neg (by simp [hp2])]
        exact Or.inr (Or.inr rfl)
      · rw [if_pos (by simpa using hp2)]
        exact Or.inr (Or.inl ⟨rfl, by simpa [List.isEmpty_iff] using hp2⟩)
    · rw [if_neg hb2]
      rw [if_neg (by simp)]
      exact Or.inr (Or.inr rfl)

theorem generate_questions_endsQm (raw1 raw2 : Str) (parsed2 : Option PyJson) :
    ∀ q ∈ generate_questions raw1 raw2 parsed2, endsWithQm q = true := by
  intro q hq
  rcases generate_questions_cases raw1 raw2 parsed2 with ⟨h, -⟩ | ⟨h, -⟩ | h <;>
    rw [h] at hq
  · exact parse_numbered_questions_endsQm raw1 q hq
  · exact parse_json_questions_endsQm parsed2 q hq
  · exact fallbackQuestions_endsQm q hq

theorem generate_questions_length_le (raw1 raw2 : Str)
    (parsed2 : Option PyJson) :
    (generate_questions raw1 raw2 parsed2).length ≤ 10 := by
  rcases generate_questions_cases raw1 raw2 parsed2 with ⟨h, -⟩ | ⟨h, -⟩ | h <;>
    rw [h]
  · exact parse_numbered_questions_length_le raw1
  · exact parse_json_questions_length_le parsed2
  · decide

theorem generate_questions_ne_nil (raw1 raw2 : Str)
    (parsed2 : Option PyJson) :
    generate_questions raw1 raw2 parsed2 ≠ [] := by
  rcases generate_questions_cases raw1 raw2 parsed2 with ⟨h, hne⟩ | ⟨h, hne⟩ | h <;>
    rw [h]
  · exact hne
  · exact hne
  · decide

theorem claim_C3_question_shape :
    (∀ raw : Str, (parse_numbered_questions raw).length ≤ 10 ∧
      ∀ q ∈ parse_numbered_questions raw, endsWithQm q = true) ∧
    (∀ parsed : Option PyJson, (parse_json_questions parsed).length ≤ 10 ∧
      ∀ q ∈ parse_json_questions parsed, endsWithQm q = true) ∧
    (∀ (raw1 raw2 : Str) (parsed2 : Option PyJson),
      (generate_questions raw1 raw2 parsed2).length ≤ 10 ∧
      ∀ q ∈ generate_questions raw1 raw2 parsed2, endsWithQm q = true) :=
  ⟨fun raw => ⟨parse_numbered_questions_length_le raw,
      parse_numbered_questions_endsQm raw⟩,
   fun parsed => ⟨parse_json_questions_length_le parsed,
      parse_json_questions_endsQm parsed⟩,
   fun raw1 raw2 parsed2 => ⟨generate_questions_length_le raw1 raw2 parsed2,
      generate_questions_endsQm raw1 raw2 parsed2⟩⟩

/-- Witness for C3 at concrete inputs: on `"1) A!\nB"` the parser returns
`["A?"]`, whose single member ends in `?`. -/
theorem claim_C3_question_shape_witness :
    parse_numbered_questions (toL "1) A!\nB") = [toL "A?"] ∧
      toL "A?" ∈ parse_numbered_questions (toL "1) A!\nB") ∧
      endsWithQm (toL "A?") = true :=
  ⟨by decide, by decide,
    claim_C3_question_shape.1 (toL "1) A!\nB") |>.2 (toL "A?") (by decide)⟩

/-- Claim C4: when both completion attempts yield empty or unparseable
output — the first raw text empty or parsed to no questions, the second
empty or parsed to no questions — `generate_questions` returns exactly the
fixed, hardcoded 9-question fallback list. -/
theorem claim_C4_fallback (raw1 raw2 : Str) (parsed2 : Option PyJson)
    (h1 : raw1 = [] ∨ parse_numbered_questions raw1 = [])
    (h2 : raw2 = [] ∨ parse_json_questions parsed2 = []) :
    generate_questions raw1 raw2 parsed2 = fallbackQuestions ∧
      fallbackQuestions.length = 9 := by
  refine ⟨?_, by decide⟩
  have hq1 : (if !raw1.isEmpty then parse_numbered_questions raw1 else [])
      = [] := by
    rcases h1 with h | h
    · subst h; rfl
    · rw [h]; split <;> rfl
  have hq2 : (if !raw2.isEmpty then parse_json_questions parsed2 else [])
      = [] := by
    rcases h2 with h | h
    · subst h; rfl
    · rw [h]; split <;> rfl
  simp only [generate_questions, hq1, hq2]
  rfl

/-- Witness for C4: both completion calls returned empty output. -/
theorem claim_C4_fallback_witness :
    generate_questions (toL "") (toL "") none = fallbackQuestions ∧
      fallbackQuestions.length = 9 :=
  claim_C4_fallback (toL "") (toL "") none (Or.inl rfl) (Or.inl rfl)

/-- Claim C9: for every pair of completion results (including both empty),
`generate_questions` returns between 1 and 10 questions, so the
`"Не удалось получить вопросы"` error branch guarding the
input → questions transition is unreachable: the handler always moves to
the questions stage. -/
theorem claim_C9_handler_total (raw1 raw2 : Str) (parsed2 : Option PyJson) :
    1 ≤ (generate_questions raw1 raw2 parsed2).length ∧
    (generate_questions raw1 raw2 parsed2).length ≤ 10 ∧
    inputGenerateHandler raw1 raw2 parsed2
      = GenerateOutcome.toQuestions (generate_questions raw1 raw2 parsed2) := by
  refine ⟨?_, generate_questions_length_le raw1 raw2 parsed2, ?_⟩
  · have h := generate_questions_ne_nil raw1 raw2 parsed2
    cases hq : generate_questions raw1 raw2 parsed2 with
    | nil => exact absurd hq h
    | cons a t => simp
  · rw [inputGenerateHandler]
    have h := generate_questions_ne_nil raw1 raw2 parsed2
    rw [if_neg (by simpa [List.isEmpty_iff] using h)]

/-- Counterexample to claim C8 as stated: on `exC8` the code returns
`"Hello!?" :: ...` (it strips only trailing `"?"` characters, so `!`
survives) and truncates the eleven lines to ten, while the claim promises
`"Hello?" :: ...` with all eleven lines. -/
theorem claim_C8_counterexample :
    noEnumLinesB exC8 = true ∧
    parse_numbered_questions exC8 ≠ claimC8Output exC8 ∧
    ¬ (∀ text : Str, noEnumLinesB text = true →
        parse_numbered_questions text = claimC8Output text) := by
  refine ⟨by decide, by decide, fun h => ?_⟩
  exact absurd (h exC8 (by decide)) (by decide)

/-- Claim C8 (amended): on input whose lines match no enumeration marker,
`parse_numbered_questions` returns every non-empty line verbatim in line
order — capped at the first 10 — with its trailing question-mark characters
(only `"?"`, not other punctuation) stripped and a question mark
appended. -/
theorem claim_C8_amended (text : Str) (h : noEnumLinesB text = true) :
    parse_numbered_questions text
      = ((((pySplitlines text).map pyStrip).filter (fun s => !s.isEmpty)).map
          (fun s => pyRstripChars ['?'] s ++ ['?'])).take 10 := by
  have hmatch : ∀ ln ∈ pySplitlines text,
      enumMatch1 (pyStrip ln) = none ∧ enumMatch2 (pyStrip ln) = none := by
    intro ln hln
    have hh := (List.all_eq_true.mp h) ln hln
    rw [Bool.and_eq_true, Option.isNone_iff_eq_none,
      Option.isNone_iff_eq_none] at hh
    exact hh
  have hflat : ((pySplitlines text).map pyStrip).flatMap pnqLine = [] := by
    rw [List.flatMap_eq_nil_iff]
    intro s hs
    rcases List.mem_map.mp hs with ⟨ln, hln, rfl⟩
    rw [pnqLine]
    split
    · rfl
    · rw [(hmatch ln hln).1, (hmatch ln hln).2]
  simp only [parse_numbered_questions, hflat, List.isEmpty_nil, if_true]

/-- Witness for the amended C8 at a concrete marker-free input. -/
theorem claim_C8_amended_witness :
    noEnumLinesB (toL "Привет\nHow are you!") = true ∧
    parse_numbered_questions (toL "Привет\nHow are you!")
      = ((((pySplitlines (toL "Привет\nHow are you!")).map pyStrip).filter
            (fun s => !s.isEmpty)).map
          (fun s => pyRstripChars ['?'] s ++ ['?'])).take 10 :=
  ⟨by decide, claim_C8_amended (toL "Привет\nHow are you!") (by decide)⟩

theorem getSecretPass1_eq (root : List (Str × SecretVal))
    (tg : List (Str × Str)) :
    ∀ names : List Str,
      getSecretPass1 root tg names
        = names.findSome?
            (fun n => (rootHit root n).orElse (fun _ => tgHit tg n)) := by
  intro names
  induction names with
  | nil => rfl
  | cons n rest ih =>
    rw [show getSecretPass1 root tg (n :: rest)
          = if (assocGet root n).elim false truthyVal then
              (assocGet root n).map strOfVal
            else if (assocGet tg n).elim false (fun s => !s.isEmpty) then
              assocGet tg n
            else getSecretPass1 root tg rest from rfl]
    rw [List.findSome?_cons]
    rcases hr : assocGet root n with _ | v
    · rcases ht : assocGet tg n with _ | s
      · simp [rootHit, tgHit, hr, ht, ih, Option.orElse]
      · by_cases hs : s = []
        · subst hs
          simp [rootHit, tgHit, hr, ht, ih, Option.orElse]
        · simp [rootHit, tgHit, hr, ht, hs, Option.orElse]
    · by_cases hv : truthyVal v
      · simp [rootHit, hr, hv, Option.orElse]
      · rcases ht : assocGet tg n with _ | s
        · simp [rootHit, tgHit, hr, ht, hv, ih, Option.orElse]
        · by_cases hs : s = []
          · subst hs
            simp [rootHit, tgHit, hr, ht, hv, ih, Option.orElse]
          · simp [rootHit, tgHit, hr, ht, hv, hs, Option.orElse]

theorem getSecretPass2_eq (root : List (Str × SecretVal))
    (tg : List (Str × Str)) :
    ∀ names : List Str,
      getSecretPass2 root tg names
        = names.findSome?
            (fun n => (rootHitL root n).orElse (fun _ => tgHitL tg n)) := by
  intro names
  induction names with
  | nil => rfl
  | cons n rest ih =>
    rw [show getSecretPass2 root tg (n :: rest)
          = if (lowerGet (root.filter (fun p => !isDictVal p.2))
                  (lowerStr n)).elim false truthyVal then
              (lowerGet (root.filter (fun p => !isDictVal p.2))
                (lowerStr n)).map strOfVal
            else if (lowerGet tg (lowerStr n)).elim false
                (fun s => !s.isEmpty) then
              lowerGet tg (lowerStr n)
            else getSecretPass2 root tg rest from rfl]
    rw [List.findSome?_cons]
    rcases hr : lowerGet (root.filter (fun p => !isDictVal p.2)) (lowerStr n)
      with _ | v
    · rcases ht : lowerGet tg (lowerStr n) with _ | s
      · simp [rootHitL, tgHitL, hr, ht, ih, Option.orElse]
      · by_cases hs : s = []
        · subst hs
          simp [rootHitL, tgHitL, hr, ht, ih, Option.orElse]
        · simp [rootHitL, tgHitL, hr, ht, hs, Option.orElse]
    · by_cases hv : truthyVal v
      · simp [rootHitL, hr, hv, Option.orElse]
      · rcases ht : lowerGet tg (lowerStr n) with _ | s
        · simp [rootHitL, tgHitL, hr, ht, hv, ih, Option.orElse]
        · by_cases hs : s = []
          · subst hs
            simp [rootHitL, tgHitL, hr, ht, hv, ih, Option.orElse]
          · simp [rootHitL, tgHitL, hr, ht, hv, hs, Option.orElse]

/-- Claim C5 (amended): `_get_secret_any` returns the first non-empty value
found by scanning the alternate names in order, checking each name first as
a direct top-level key and then inside the nested `[telegram]` scope, and
then repeating that same interleaved scan case-insensitively; when no check
produces a value it returns `none` (absence, not a default).  (The claim as
stated instead promises a phase order — all names at top level before any
name in the nested scope — refuted by `claim_C5_counterexample`.) -/
theorem claim_C5_amended (root : List (Str × SecretVal))
    (tg : List (Str × Str)) (names : List Str) :
    _get_secret_any root tg names = getSecretSpecInterleaved root tg names ∧
    ((∀ n ∈ names, rootHit root n = none ∧ tgHit tg n = none ∧
        rootHitL root n = none ∧ tgHitL tg n = none) →
      _get_secret_any root tg names = none) := by
  have heq : _get_secret_any root tg names
      = getSecretSpecInterleaved root tg names := by
    rw [show _get_secret_any root tg names
          = (match getSecretPass1 root tg names with
             | some v => some v
             | none => getSecretPass2 root tg names) from rfl]
    rw [getSecretPass1_eq, getSecretPass2_eq, getSecretSpecInterleaved]
    rcases h : names.findSome?
        (fun n => (rootHit root n).orElse (fun _ => tgHit tg n)) with _ | v
    · simp [Option.orElse]
    · simp [Option.orElse]
  refine ⟨heq, fun hall => ?_⟩
  rw [heq, getSecretSpecInterleaved]
  have h1 : names.findSome?
      (fun n => (rootHit root n).orElse (fun _ => tgHit tg n)) = none := by
    rw [List.findSome?_eq_none_iff]
    intro n hn
    rcases hall n hn with ⟨ha, hb, -, -⟩
    simp [ha, hb, Option.orElse]
  have h2 : names.findSome?
      (fun n => (rootHitL root n).orElse (fun _ => tgHitL tg n)) = none := by
    rw [List.findSome?_eq_none_iff]
    intro n hn
    rcases hall n hn with ⟨-, -, hc, hd⟩
    simp [hc, hd, Option.orElse]
  rw [h1, h2]
  rfl

/-- Witness for the amended C5: a configuration where only the
case-insensitively spelled `[telegram]` key matches, and one where nothing
matches and the result is `none`. -/
theorem claim_C5_amended_witness :
    _get_secret_any [] [(toL "Bot_Token", toL "zz")] [toL "bot_token"]
        = getSecretSpecInterleaved [] [(toL "Bot_Token", toL "zz")]
            [toL "bot_token"] ∧
    _get_secret_any [] [(toL "Bot_Token", toL "zz")] [toL "bot_token"]
        = some (toL "zz") ∧
    _get_secret_any [] [] [toL "TELEGRAM_BOT_TOKEN"] = none :=
  ⟨(claim_C5_amended [] [(toL "Bot_Token", toL "zz")] [toL "bot_token"]).1,
   by decide,
   (claim_C5_amended [] [] [toL "TELEGRAM_BOT_TOKEN"]).2 (by decide)⟩

/-- Counterexample to claim C5 as stated: the secrets hold the value only
under `[telegram]` for the first alternate name (`A`) and a top-level value
for the second (`B`).  The code scans per name — `A` at root, `A` in
`[telegram]` (hit: `"x"`) — while the claimed phase order (all names at top
level first) would find `B`'s root value `"y"` first. -/
theorem claim_C5_counterexample :
    _get_secret_any [(toL "B", SecretVal.str (toL "y"))] [(toL "A", toL "x")]
        [toL "A", toL "B"] = some (toL "x") ∧
    getSecretSpecPhases [(toL "B", SecretVal.str (toL "y"))]
        [(toL "A", toL "x")] [toL "A", toL "B"] = some (toL "y") ∧
    ¬ (∀ (root : List (Str × SecretVal)) (tg : List (Str × Str))
        (names : List Str),
        _get_secret_any root tg names = getSecretSpecPhases root tg names) := by
  refine ⟨by decide, by decide, fun h => ?_⟩
  have hx := h [(toL "B", SecretVal.str (toL "y"))] [(toL "A", toL "x")]
    [toL "A", toL "B"]
  exact absurd hx (by decide)

theorem sendLoop_spec (post : Nat → HttpResponse) (chat : Str) :
    ∀ (cs : List Str) (i : Nat),
      ((sendLoop post chat cs i).1.map (fun p => p.1.text)
          = cs.take (sendLoop post chat cs i).1.length) ∧
      (∀ r ∈ (sendLoop post chat cs i).1.dropLast,
          r.2.status_code = 200) ∧
      (∀ r ∈ (sendLoop post chat cs i).1, r.2.status_code ≠ 200 →
          tgErrorMsg r.2 ∈ (sendLoop post chat cs i).2) := by
  intro cs
  induction cs with
  | nil =>
    intro i
    refine ⟨rfl, ?_, ?_⟩ <;> simp [sendLoop]
  | cons c rest ih =>
    intro i
    rw [show sendLoop post chat (c :: rest) i
          = if (post i).status_code ≠ 200 then
              ([(⟨chat, c, true⟩, post i)], [tgErrorMsg (post i)])
            else
              ((⟨chat, c, true⟩, post i) :: (sendLoop post chat rest (i + 1)).1,
                (sendLoop post chat rest (i + 1)).2) from rfl]
    by_cases hs : (post i).status_code ≠ 200
    · rw [if_pos hs]
      refine ⟨rfl, ?_, ?_⟩
      · intro r hr
        simp at hr
      · intro r hr _
        rw [List.mem_singleton] at hr
        subst hr
        exact List.mem_singleton.mpr rfl
    · rw [if_neg hs]
      push_neg at hs
      obtain ⟨htake, hdrop, herr⟩ := ih (i + 1)
      refine ⟨?_, ?_, ?_⟩
      · simp only [List.map_cons, List.length_cons, List.take_succ_cons,
          htake]
      · intro r hr
        rcases hrec : (sendLoop post chat rest (i + 1)).1 with _ | ⟨x, xs⟩
        · rw [hrec] at hr
          simp at hr
        · rw [hrec] at hr
          rw [List.dropLast_cons₂] at hr
          rcases List.mem_cons.mp hr with h | h
          · subst h
            exact hs
          · exact hdrop r (by rw [hrec]; exact h)
      · intro r hr hne
        rcases List.mem_cons.mp hr with h | h
        · subst h
          exact absurd hs hne
        · exact herr r h hne

/-- Claim C6: `send_to_telegram` delivers the chunks of the document in
chunk order; the requests performed are always an order-preserving prefix
of the chunk list; every response except possibly the last is a success,
so after a non-success response no further chunk is sent; a failing
response is surfaced with its status code and body; and whenever some sent
chunk returned non-success the draft-stage handler leaves the session
unchanged (still in the draft stage) instead of resetting it to input. -/
theorem claim_C6_send_failure (token defaultChat : Option Str)
    (post : Nat → HttpResponse) (text : Str) (chatId : Option Str) :
    ((send_to_telegram token defaultChat post text chatId).results.map
        (fun p => p.1.text)
      = (chunk_for_tg text 4000).take
          (send_to_telegram token defaultChat post text chatId).results.length) ∧
    (∀ r ∈ (send_to_telegram token defaultChat post text chatId).results.dropLast,
        r.2.status_code = 200) ∧
    (∀ r ∈ (send_to_telegram token defaultChat post text chatId).results,
        r.2.status_code ≠ 200 →
        tgErrorMsg r.2
          ∈ (send_to_telegram token defaultChat post text chatId).errors) ∧
    (∀ s : Session,
        (∃ r ∈ (send_to_telegram token defaultChat post text chatId).results,
          r.2.status_code ≠ 200) →
        draftSendHandler s (send_to_telegram token defaultChat post text chatId)
          = s) := by
  have hhandler : ∀ (o : SendOutcome) (s : Session),
      (∃ r ∈ o.results, r.2.status_code ≠ 200) → draftSendHandler s o = s := by
    rintro o s ⟨r, hr, hne⟩
    rw [draftSendHandler, if_neg]
    rintro ⟨-, hall⟩
    rw [List.all_eq_true] at hall
    exact hne (by simpa using hall r hr)
  by_cases htok : (!truthyOpt token) = true
  · have he : send_to_telegram token defaultChat post text chatId
        = ⟨[], [tokenErrMsg]⟩ := by
      rw [send_to_telegram, if_pos htok]
    rw [he]
    exact ⟨rfl, by simp, by simp, fun s h => hhandler _ s h⟩
  · rcases hcc : (if truthyOpt chatId then chatId else defaultChat)
      with _ | chat
    · have he : send_to_telegram token defaultChat post text chatId
          = ⟨[], [chatErrMsg]⟩ := by
        simp [send_to_telegram, htok, hcc]
      rw [he]
      exact ⟨rfl, by simp, by simp, fun s h => hhandler _ s h⟩
    · by_cases hchat : chat.isEmpty
      · have he : send_to_telegram token defaultChat post text chatId
            = ⟨[], [chatErrMsg]⟩ := by
          simp [send_to_telegram, htok, hcc, hchat]
        rw [he]
        exact ⟨rfl, by simp, by simp, fun s h => hhandler _ s h⟩
      · have he : send_to_telegram token defaultChat post text chatId
            = ⟨(sendLoop post chat (chunk_for_tg text 4000) 0).1,
                (sendLoop post chat (chunk_for_tg text 4000) 0).2⟩ := by
          simp [send_to_telegram, htok, hcc, hchat]
        rw [he]
        obtain ⟨h1, h2, h3⟩ := sendLoop_spec post chat (chunk_for_tg text 4000) 0
        exact ⟨h1, h2, h3, fun s h => hhandler _ s h⟩

/-- Witness for C6: a failing POST (status 500) surfaces its status and
body, and leaves the session in the draft stage. -/
theorem claim_C6_send_failure_witness :
    tgErrorMsg ⟨500, toL "err"⟩
        ∈ (send_to_telegram (some (toL "t")) (some (toL "c"))
            (fun _ => ⟨500, toL "err"⟩) (toL "hello") none).errors ∧
    draftSendHandler draftSessionEx
        (send_to_telegram (some (toL "t")) (some (toL "c"))
          (fun _ => ⟨500, toL "err"⟩) (toL "hello") none)
      = draftSessionEx := by
  have h := claim_C6_send_failure (some (toL "t")) (some (toL "c"))
    (fun _ => ⟨500, toL "err"⟩) (toL "hello") none
  refine ⟨h.2.2.1 (⟨toL "c", toL "hello", true⟩, ⟨500, toL "err"⟩)
      (by decide) (by decide),
    h.2.2.2 draftSessionEx
      ⟨(⟨toL "c", toL "hello", true⟩, ⟨500, toL "err"⟩), by decide, by decide⟩⟩

/-- Claim C7: the locally built fallback document is non-empty and contains
every question of the current list together with its answer (or the em-dash
placeholder when unanswered); when the completion result is empty after
trimming, the document carried into the draft stage is exactly that
fallback, so the transition always yields a non-empty document. -/
theorem claim_C7_fallback_document (llm init : Str) (qs : List Str)
    (answers : List (Nat × Str)) :
    tzBuildResult llm init qs answers ≠ [] ∧
    build_fallback_tz init qs answers ≠ [] ∧
    (pyStrip llm = [] →
      tzBuildResult llm init qs answers = build_fallback_tz init qs answers) ∧
    (∀ i, i < qs.length →
      List.IsInfix (toL "- " ++ (Nat.repr (i + 1)).data ++ toL ". "
          ++ qs.getD i [] ++ toL "\n  Ответ: " ++ ansOf answers i ++ toL "\n")
        (build_fallback_tz init qs answers)) := by
  have hfb : build_fallback_tz init qs answers ≠ [] := by
    rw [show build_fallback_tz init qs answers
          = toL "# Название\n"
            ++ ([toL "Черновик ТЗ (автосборка)\n\n",
                  toL "## Исходный ввод\n", pyStrip init ++ toL "\n\n",
                  toL "## Уточнения\n"]
                ++ (List.range qs.length).map (qaLine answers qs)
                ++ [toL "\n## Цель\n—\n\n",
                    toL "## Контекст и ограничения\n—\n\n",
                    toL "## Пользовательские сценарии\n- —\n- —\n- —\n\n",
                    toL "## Входные данные\n- —\n\n",
                    toL "## Выход/результат\n- —\n\n",
                    toL "## Критерии качества и приёмки\n- —\n\n",
                    toL "## Ограничения генерации\n- —\n\n",
                    toL "## Технические детали промпта\n- Системное сообщение — заполнить\n- Параметры: temperature/top_p — уточнить\n\n",
                    toL "## Телеметрия и логирование\n- —\n\n",
                    toL "## Риски и допущения\n- —\n\n",
                    toL "## Чек-лист готовности\n- —\n"]).flatten from rfl]
    intro h
    exact absurd (List.append_eq_nil.mp h).1 (by decide)
  refine ⟨?_, hfb, ?_, ?_⟩
  · rw [tzBuildResult]
    by_cases h : (pyStrip llm).isEmpty
    · rw [if_pos h]
      exact hfb
    · rw [if_neg h]
      intro hnil
      subst hnil
      exact h (by rfl)
  · intro h
    rw [tzBuildResult, if_pos (by rw [h]; rfl)]
  · intro i hi
    have hmem : qaLine answers qs i
        ∈ (List.range qs.length).map (qaLine answers qs) :=
      List.mem_map.mpr ⟨i, List.mem_range.mpr hi, rfl⟩
    have hinfix := List.infix_of_mem_flatten hmem
    rw [show build_fallback_tz init qs answers
          = ([toL "# Название\n", toL "Черновик ТЗ (автосборка)\n\n",
              toL "## Исходный ввод\n", pyStrip init ++ toL "\n\n",
              toL "## Уточнения\n"].flatten
            ++ ((List.range qs.length).map (qaLine answers qs)).flatten
            ++ [toL "\n## Цель\n—\n\n",
                toL "## Контекст и ограничения\n—\n\n",
                toL "## Пользовательские сценарии\n- —\n- —\n- —\n\n",
                toL "## Входные данные\n- —\n\n",
                toL "## Выход/результат\n- —\n\n",
                toL "## Критерии качества и приёмки\n- —\n\n",
                toL "## Ограничения генерации\n- —\n\n",
                toL "## Технические детали промпта\n- Системное сообщение — заполнить\n- Параметры: temperature/top_p — уточнить\n\n",
                toL "## Телеметрия и логирование\n- —\n\n",
                toL "## Риски и допущения\n- —\n\n",
                toL "## Чек-лист готовности\n- —\n"].flatten)
          from by
            rw [build_fallback_tz, List.flatten_append, List.flatten_append]]
    obtain ⟨s, t, hst⟩ := hinfix
    exact ⟨[toL "# Название\n", toL "Черновик ТЗ (автосборка)\n\n",
        toL "## Исходный ввод\n", pyStrip init ++ toL "\n\n",
        toL "## Уточнения\n"].flatten ++ s,
      t ++ [toL "\n## Цель\n—\n\n",
        toL "## Контекст и ограничения\n—\n\n",
        toL "## Пользовательские сценарии\n- —\n- —\n- —\n\n",
        toL "## Входные данные\n- —\n\n",
        toL "## Выход/результат\n- —\n\n",
        toL "## Критерии качества и приёмки\n- —\n\n",
        toL "## Ограничения генерации\n- —\n\n",
        toL "## Технические детали промпта\n- Системное сообщение — заполнить\n- Параметры: temperature/top_p — уточнить\n\n",
        toL "## Телеметрия и логирование\n- —\n\n",
        toL "## Риски и допущения\n- —\n\n",
        toL "## Чек-лист готовности\n- —\n"].flatten,
      by rw [← hst]; simp [qaLine, List.append_assoc]⟩

/-- Witness for C7: one question, no answers — the fallback document is
produced and contains the question line with the em-dash placeholder. -/
theorem claim_C7_fallback_document_witness :
    tzBuildResult (toL "  ") (toL "idea") [toL "Q?"] [] ≠ [] ∧
    (pyStrip (toL "  ") = [] →
      tzBuildResult (toL "  ") (toL "idea") [toL "Q?"] []
        = build_fallback_tz (toL "idea") [toL "Q?"] []) ∧
    List.IsInfix (toL "- " ++ (Nat.repr 1).data ++ toL ". " ++
        ([toL "Q?"].getD 0 []) ++ toL "\n  Ответ: " ++ ansOf [] 0 ++ toL "\n")
      (build_fallback_tz (toL "idea") [toL "Q?"] []) := by
  have h := claim_C7_fallback_document (toL "  ") (toL "idea") [toL "Q?"] []
  exact ⟨h.1, h.2.2.1, h.2.2.2 0 (by decide)⟩

/-! ### Claim C10: whitespace-only input -/
/-- Claim C10: on input consisting only of whitespace (including the empty
string) `chunk_for_tg` returns exactly one chunk, the empty string; with
credentials configured, `send_to_telegram` on such input therefore performs
exactly one POST whose text field is empty. -/
theorem claim_C10_ws_input (text : Str) (hws : text.all pyIsSpace = true) :
    chunk_for_tg text 4000 = [[]] ∧
    (∀ (tok chat : Str) (post : Nat → HttpResponse),
      tok ≠ [] → chat ≠ [] →
      (send_to_telegram (some tok) (some chat) post text none).results.map
          (fun p => p.1)
        = [⟨chat, [], true⟩]) := by
  have hstrip : pyStrip text = [] := pyStrip_nil_of_all hws
  have hchunk : chunk_for_tg text 4000 = [[]] := by
    rw [show chunk_for_tg text 4000
          = if (pyStrip text).length ≤ 4000 then [pyStrip text]
            else (chunkPara 4000 (splitOnNN (pyStrip text)) [] 0).flatMap
              (fun p =>
                if p.length ≤ 4000 then [p]
                else chunkLines 4000 (pySplitlinesKeep p) [] 0) from rfl,
      hstrip]
    rfl
  refine ⟨hchunk, fun tok chat post htok hchat => ?_⟩
  have he : send_to_telegram (some tok) (some chat) post text none
      = ⟨(sendLoop post chat (chunk_for_tg text 4000) 0).1,
          (sendLoop post chat (chunk_for_tg text 4000) 0).2⟩ := by
    simp [send_to_telegram, truthyOpt, htok, hchat,
      List.isEmpty_iff]
  rw [he, hchunk]
  rw [show sendLoop post chat [[]] 0
        = if (post 0).status_code ≠ 200 then
            ([(⟨chat, [], true⟩, post 0)], [tgErrorMsg (post 0)])
          else
            ((⟨chat, [], true⟩, post 0) :: (sendLoop post chat [] 1).1,
              (sendLoop post chat [] 1).2) from rfl]
  by_cases hs : (post 0).status_code ≠ 200
  · rw [if_pos hs]
    rfl
  · rw [if_neg hs]
    rfl

/-- Witness for C10 on the concrete whitespace input `" \n "`. -/
theorem claim_C10_ws_input_witness :
    (toL " \n ").all pyIsSpace = true ∧
    chunk_for_tg (toL " \n ") 4000 = [[]] ∧
    (send_to_telegram (some (toL "t")) (some (toL "c"))
        (fun _ => ⟨200, toL "ok"⟩) (toL " \n ") none).results.map
        (fun p => p.1)
      = [⟨toL "c", [], true⟩] := by
  have h := claim_C10_ws_input (toL " \n ") (by decide)
  exact ⟨by decide, h.1,
    h.2 (toL "t") (toL "c") (fun _ => ⟨200, toL "ok"⟩) (by decide) (by decide)⟩

end TZHelper

